import Mathlib

/-!
Verification of the workflow intermediate representation and its static
validator from the gcp-workflows-toolkit TypeScript library.

The embedding follows the current sources:
* step model: `src/steps.ts` (the `NamedWorkflowStep` pair model, where a step
  is a payload object and the name lives in the pair),
* workflow containers and the depth-first traversal: `src/workflows.ts`,
* the validator pipeline: `src/validation.ts` (the five-check version with a
  `disabled` parameter).

Payload fields that no validator, traversal, or claim ever reads (assignment
values, call argument values, return/raise values, retry policies, loop
variables and ranges, shared-variable lists, concurrency limits, rendered
expressions) are omitted from the step constructors; every field that the
validator or the traversal reads is carried faithfully.  Call arguments are
carried as their key list, in insertion order, because the validator only ever
looks at `Object.keys(step.args ?? ...)`.

JavaScript object identity matters in one place: the traversal's visited set
stores step-pair objects and tests membership by identity.  Pure values have
no identity, so each `NamedWorkflowStep` carries an explicit object identifier
`oid : Nat` standing for its heap address; two pairs are "the same object"
exactly when their identifiers coincide.  A tree whose construction never
shares a pair object corresponds to a value whose pre-order expansion has
pairwise distinct identifiers.
-/

abbrev GWStepName := String
abbrev GWVariableName := String

/-- Values attachable to workflow steps (`GWValue` in `src/variables.ts`).
Numeric payloads use `Int` as a stand-in for the JavaScript number type; no
validator and no property proved below ever reads a numeric payload. -/
inductive GWValue : Type where
  | nullValue : GWValue
  | strValue (s : String) : GWValue
  | numValue (n : Int) : GWValue
  | boolValue (b : Bool) : GWValue
  | listValue (xs : List GWValue) : GWValue
  | mapValue (fields : List (String × GWValue)) : GWValue
  | exprValue (expression : String) : GWValue

mutual
/-- Step payloads from `src/steps.ts`.  Constructors mirror the step classes:
`AssignStep`, `CallStep`, `SwitchStep`, `TryExceptStep`, `RaiseStep`,
`ForStep`, `StepsStep`, `Parallel`, `ReturnStep`.  A `Parallel` holds either
branch blocks or an inner for-loop; only the loop's steps are retained because
`Parallel.nestedSteps` reads `this.forStep?.steps`. -/
inductive WorkflowStep : Type where
  | assignStep : WorkflowStep
  | callStep (call : String) (args : Option (List GWVariableName)) : WorkflowStep
  | switchStep (conditions : List SwitchCondition) (next : Option GWStepName) : WorkflowStep
  | tryExceptStep (trySteps : List NamedWorkflowStep) (exceptSteps : List NamedWorkflowStep) : WorkflowStep
  | raiseStep : WorkflowStep
  | forStep (steps : List NamedWorkflowStep) : WorkflowStep
  | stepsStep (steps : List NamedWorkflowStep) : WorkflowStep
  | parallelStep (branches : Option (List NamedWorkflowStep)) (forBody : Option (List NamedWorkflowStep)) : WorkflowStep
  | returnStep : WorkflowStep

/-- One branch of a switch step (`SwitchCondition` in `src/steps.ts`): an
optional jump target and a nested step list.  The boolean condition expression
is never read by the validator and is omitted. -/
inductive SwitchCondition : Type where
  | mk (next : Option GWStepName) (steps : List NamedWorkflowStep) : SwitchCondition

/-- The `NamedWorkflowStep` pair type of `src/steps.ts`, extended with the
object identifier `oid` standing for the JavaScript heap identity of the pair
object (see the module docstring). -/
inductive NamedWorkflowStep : Type where
  | mk (oid : Nat) (name : GWStepName) (step : WorkflowStep) : NamedWorkflowStep
end

def NamedWorkflowStep.name : NamedWorkflowStep → GWStepName
  | .mk _ n _ => n

def NamedWorkflowStep.oid : NamedWorkflowStep → Nat
  | .mk i _ _ => i

def NamedWorkflowStep.step : NamedWorkflowStep → WorkflowStep
  | .mk _ _ s => s

def SwitchCondition.next : SwitchCondition → Option GWStepName
  | .mk n _ => n

def SwitchCondition.steps : SwitchCondition → List NamedWorkflowStep
  | .mk _ s => s

/-- Direct nested children of a step, variant by variant, following each step
class's `nestedSteps()` method in `src/steps.ts`:  leaves return `[]`, a
switch returns `conditions.flatMap((x) => x.steps)`, try/except returns
`trySteps.concat(exceptSteps)`, for/steps blocks return their body, and a
parallel returns `(branches ?? []).concat(forStep?.steps ?? [])`. -/
def WorkflowStep.nestedSteps : WorkflowStep → List NamedWorkflowStep
  | .assignStep => []
  | .callStep _ _ => []
  | .switchStep conds _ => conds.flatMap SwitchCondition.steps
  | .tryExceptStep t e => t ++ e
  | .raiseStep => []
  | .forStep s => s
  | .stepsStep s => s
  | .parallelStep b f => b.getD [] ++ f.getD []
  | .returnStep => []

/-- Size arithmetic for list concatenation, used as the termination measure of
the traversal below. -/
theorem sizeOf_list_append (l1 l2 : List NamedWorkflowStep) :
    sizeOf (l1 ++ l2) + 1 = sizeOf l1 + sizeOf l2 := by
  induction l1 with
  | nil => simp; omega
  | cons x xs ih => simp at ih ⊢; omega

/-- Size bound for the nested steps gathered from switch conditions, used as
the termination measure of the traversal below. -/
theorem sizeOf_condition_flatMap_le (conds : List SwitchCondition) :
    sizeOf (conds.flatMap SwitchCondition.steps) ≤ sizeOf conds := by
  induction conds with
  | nil => simp [List.flatMap]
  | cons c cs ih =>
      cases c with
      | mk n s =>
        have h := sizeOf_list_append s (cs.flatMap SwitchCondition.steps)
        simp only [List.flatMap_cons, SwitchCondition.steps]
        simp only [List.cons.sizeOf_spec, SwitchCondition.mk.sizeOf_spec]
        omega

/-- Size bound for defaulting an optional step list, used as the termination
measure of the traversal below. -/
theorem sizeOf_option_getD_le (o : Option (List NamedWorkflowStep)) :
    sizeOf (o.getD []) ≤ sizeOf o := by
  cases o <;> simp [Option.getD]

/-- A step's nested-step list is no larger than the step itself; this is what
makes the depth-first traversal terminate. -/
theorem sizeOf_nestedSteps_le (s : WorkflowStep) :
    sizeOf s.nestedSteps ≤ sizeOf s := by
  cases s with
  | assignStep => simp [WorkflowStep.nestedSteps]
  | callStep c a => simp [WorkflowStep.nestedSteps]; omega
  | switchStep conds nxt =>
      have := sizeOf_condition_flatMap_le conds
      simp [WorkflowStep.nestedSteps]
      omega
  | tryExceptStep t e =>
      have := sizeOf_list_append t e
      simp [WorkflowStep.nestedSteps]
      omega
  | raiseStep => simp [WorkflowStep.nestedSteps]
  | forStep s => simp [WorkflowStep.nestedSteps]
  | stepsStep s => simp [WorkflowStep.nestedSteps]
  | parallelStep b f =>
      have h1 := sizeOf_option_getD_le b
      have h2 := sizeOf_option_getD_le f
      have h3 := sizeOf_list_append (b.getD []) (f.getD [])
      simp [WorkflowStep.nestedSteps]
      omega
  | returnStep => simp [WorkflowStep.nestedSteps]

/-- The payload of a named pair is strictly smaller than the pair. -/
theorem sizeOf_step_lt (ns : NamedWorkflowStep) : sizeOf ns.step < sizeOf ns := by
  cases ns with
  | mk i n s => simp [NamedWorkflowStep.step]

mutual
/-- The body of `BaseWorkflow.iterateStepsDepthFirst` (`src/workflows.ts`):
the inner generator `visitPreOrder` with the enclosing mutable `visited` set
made explicit.  The visited set stores the identities of the pair objects
(`visited.has(step)` / `visited.add(step)` compare by object identity); the
function returns the yielded sequence together with the updated visited set. -/
def visitPreOrder (s : NamedWorkflowStep) (visited : List Nat) :
    List NamedWorkflowStep × List Nat :=
  if s.oid ∈ visited then ([], visited)
  else
    let r := visitPreOrderList s.step.nestedSteps (s.oid :: visited)
    (s :: r.1, r.2)
termination_by sizeOf s
decreasing_by
  have h1 := sizeOf_nestedSteps_le s.step
  have h2 := sizeOf_step_lt s
  omega

/-- Sequencing of `visitPreOrder` over a step list (the `for ... yield*` loops
of `iterateStepsDepthFirst`), threading the visited set left to right. -/
def visitPreOrderList (pending : List NamedWorkflowStep) (visited : List Nat) :
    List NamedWorkflowStep × List Nat :=
  match pending with
  | [] => ([], visited)
  | x :: xs =>
      let r1 := visitPreOrder x visited
      let r2 := visitPreOrderList xs r1.2
      (r1.1 ++ r2.1, r2.2)
termination_by sizeOf pending
decreasing_by
  all_goals (simp; try omega)
end

mutual
/-- Modelled from the spec: the plain depth-first pre-order expansion of one
named step (the step itself, then recursively its nested steps), with no
visited guard.  This is the sequence the traversal contract promises for
tree-shaped nesting. -/
def preorderStep (s : NamedWorkflowStep) : List NamedWorkflowStep :=
  s :: preorderList s.step.nestedSteps
termination_by sizeOf s
decreasing_by
  have h1 := sizeOf_nestedSteps_le s.step
  have h2 := sizeOf_step_lt s
  omega

/-- Modelled from the spec: depth-first pre-order expansion of a step list,
siblings in declared order. -/
def preorderList (pending : List NamedWorkflowStep) : List NamedWorkflowStep :=
  match pending with
  | [] => []
  | x :: xs => preorderStep x ++ preorderList xs
termination_by sizeOf pending
decreasing_by
  all_goals (simp; try omega)
end

/-- A declared workflow parameter (`WorkflowParameter` in `src/workflows.ts`):
a parameter with no default is required, one with a default is optional. -/
structure WorkflowParameter : Type where
  name : GWVariableName
  default : Option GWValue

/-- A workflow container (`BaseWorkflow` in `src/workflows.ts`): a name, an
ordered named-step list, and an optional parameter list. -/
structure BaseWorkflow : Type where
  name : String
  steps : List NamedWorkflowStep
  params : Option (List WorkflowParameter)

/-- Subworkflows add nothing to `BaseWorkflow` (`Subworkflow extends
BaseWorkflow` with an identical constructor). -/
abbrev Subworkflow := BaseWorkflow

/-- The `MainWorkflow` constructor: the name is fixed to `"main"` and an
optional invocation argument becomes a single parameter without default. -/
def MainWorkflow (steps : List NamedWorkflowStep) (argumentName : Option GWVariableName) :
    BaseWorkflow :=
  ⟨"main", steps, argumentName.map (fun a => [⟨a, none⟩])⟩

/-- The application container (`WorkflowApp` in `src/workflows.ts`). -/
structure WorkflowApp : Type where
  mainWorkflow : BaseWorkflow
  subworkflows : List Subworkflow

/-- The `iterateStepsDepthFirst` generator of `src/workflows.ts`, run to a
list: visit the top-level steps in order, each expanded pre-order, starting
from an empty visited set. -/
def BaseWorkflow.iterateStepsDepthFirst (wf : BaseWorkflow) : List NamedWorkflowStep :=
  (visitPreOrderList wf.steps []).1

/-- The flat list of step names of one workflow, in traversal order; this is
the `stepNames` array collected by `validateJumpTargetsInWorkflow` and the
name sequence scanned by the duplicate-name check. -/
def workflowStepNames (wf : BaseWorkflow) : List String :=
  wf.iterateStepsDepthFirst.map NamedWorkflowStep.name

/-- A reported validation problem (`WorkflowIssue` in `src/validation.ts`). -/
structure WorkflowIssue : Type where
  type : String
  message : String
deriving DecidableEq

/-- One iteration of the duplicate-collection loop shared by
`validateNoDuplicateStepNames` and `validateNoDuplicateSubworkflowNames`:
`seen` and `duplicates` are insertion-ordered sets (JavaScript `Set`), a name
already seen is added to `duplicates`, otherwise to `seen`. -/
def dupScanStep (acc : List String × List String) (name : String) : List String × List String :=
  if acc.1.contains name then
    (acc.1, if acc.2.contains name then acc.2 else acc.2 ++ [name])
  else (acc.1 ++ [name], acc.2)

/-- The inner `collectDuplicateStepName` of `validateNoDuplicateStepNames`:
scan the depth-first step names of one workflow and return the duplicated
names, first-repeat order, each once. -/
def collectDuplicateStepName (wf : BaseWorkflow) : List String :=
  ((workflowStepNames wf).foldl dupScanStep ([], [])).2

/-- The `duplicatedStepName` check of `src/validation.ts`: one issue for the
main workflow and one per subworkflow, each present only when that workflow
has duplicated step names, the message joining all of them. -/
def validateNoDuplicateStepNames (app : WorkflowApp) : List WorkflowIssue :=
  (if (collectDuplicateStepName app.mainWorkflow).length > 0 then
    [⟨"duplicatedStepName",
      "Duplicated step names in the main workflow: "
        ++ String.intercalate ", " (collectDuplicateStepName app.mainWorkflow)⟩]
   else [])
  ++ app.subworkflows.flatMap (fun subworkflow =>
    if (collectDuplicateStepName subworkflow).length > 0 then
      [⟨"duplicatedStepName",
        "Duplicated step names in the subworkflow " ++ subworkflow.name ++ ": "
          ++ String.intercalate ", " (collectDuplicateStepName subworkflow)⟩]
    else [])

/-- The `duplicatedSubworkflowName` check of `src/validation.ts`: collect
duplicated subworkflow names with the same seen/duplicates scan and report
them in a single combined issue. -/
def validateNoDuplicateSubworkflowNames (app : WorkflowApp) : List WorkflowIssue :=
  let duplicates := ((app.subworkflows.map BaseWorkflow.name).foldl dupScanStep ([], [])).2
  if duplicates.length > 0 then
    [⟨"duplicatedSubworkflowName",
      "Duplicated subworkflow names: " ++ String.intercalate ", " duplicates⟩]
  else []

/-- The `invalidWorkflowName` check of `src/validation.ts`: one issue if some
subworkflow is named `"main"`, one if some subworkflow has an empty name. -/
def validateWorkflowNames (app : WorkflowApp) : List WorkflowIssue :=
  let names := app.subworkflows.map BaseWorkflow.name
  (if names.any (fun x => x == "main") then
    [⟨"invalidWorkflowName",
      "Subworkflow can" ++ String.singleton (Char.ofNat 39) ++ "t be called \"main\""⟩]
   else [])
  ++ (if names.any (fun x => x == "") then
    [⟨"invalidWorkflowName", "Subworkflow must have a non-empty name"⟩]
   else [])

/-- The dotted-name heuristic of `src/validation.ts`: a call target is assumed
to be a standard-library or connector function when it contains a dot
(`functionName.includes(...)` with the one-character string, i.e. membership
of the dot character, written here over the character list). -/
def isRuntimeFunction (functionName : String) : Bool :=
  functionName.toList.contains (Char.ofNat 46)

/-- The `validCallTarget` helper of `validateJumpTargetsInWorkflow`. -/
def validCallTarget (stepNames subworkflowNames : List String) (name : String) : Bool :=
  isRuntimeFunction name || stepNames.contains name || subworkflowNames.contains name

/-- The `validNextTarget` helper of `validateJumpTargetsInWorkflow`; the
literal `"end"` is always accepted. -/
def validNextTarget (stepNames : List String) (name : String) : Bool :=
  stepNames.contains name || name == "end"

/-- One `next`-field check of `validateJumpTargetsInWorkflow` (the if-block
that appears once for a switch's top-level `next` and once per condition).
The field is guarded by JavaScript truthiness (`if (step.next && ...)`): an
absent field, and likewise an empty-string target, is skipped without being
checked. -/
def nextTargetIssue (stepNames : List String) (stepName : String)
    (next : Option GWStepName) : List WorkflowIssue :=
  match next with
  | some nxt =>
      if nxt != "" && !(validNextTarget stepNames nxt) then
        [⟨"missingJumpTarget",
          "Next target \"" ++ nxt ++ "\" in step \"" ++ stepName ++ "\" not found"⟩]
      else []
  | none => []

/-- The loop body of `validateJumpTargetsInWorkflow`, for one visited step.
Call targets are checked unconditionally; a switch is checked on its
top-level `next` and then on each condition's `next`. -/
def stepJumpTargetIssues (stepNames subworkflowNames : List String)
    (ns : NamedWorkflowStep) : List WorkflowIssue :=
  match ns.step with
  | .callStep target _ =>
      if !(validCallTarget stepNames subworkflowNames target) then
        [⟨"missingJumpTarget",
          "Call target \"" ++ target ++ "\" in step \"" ++ ns.name ++ "\" not found"⟩]
      else []
  | .switchStep conds next =>
      nextTargetIssue stepNames ns.name next
      ++ conds.flatMap (fun cond => nextTargetIssue stepNames ns.name cond.next)
  | _ => []

/-- The per-workflow jump-target scan of `src/validation.ts`: collect the
workflow's step names, then check every visited step. -/
def validateJumpTargetsInWorkflow (workflow : BaseWorkflow)
    (subworkflowNames : List String) : List WorkflowIssue :=
  workflow.iterateStepsDepthFirst.flatMap
    (stepJumpTargetIssues (workflowStepNames workflow) subworkflowNames)

/-- The `missingJumpTarget` check of `src/validation.ts`: the main workflow
first, then each subworkflow, all against the declared subworkflow names. -/
def validateJumpTargets (app : WorkflowApp) : List WorkflowIssue :=
  let subworkflowNames := app.subworkflows.map BaseWorkflow.name
  validateJumpTargetsInWorkflow app.mainWorkflow subworkflowNames
    ++ app.subworkflows.flatMap (fun subworkflow =>
        validateJumpTargetsInWorkflow subworkflow subworkflowNames)

/-- Required and optional parameter names precomputed per subworkflow by
`validateSubworkflowArguments`. -/
structure SubworkflowParams : Type where
  required : List String
  optional : List String
deriving DecidableEq

/-- Required parameter names of a subworkflow: those of its parameters with no
default value (`typeof x.default === undefined` in the source). -/
def requiredParamNames (x : Subworkflow) : List String :=
  ((x.params.getD []).filter (fun p => p.default.isNone)).map WorkflowParameter.name

/-- Optional parameter names of a subworkflow: those of its parameters with a
default value. -/
def optionalParamNames (x : Subworkflow) : List String :=
  ((x.params.getD []).filter (fun p => p.default.isSome)).map WorkflowParameter.name

/-- The `paramsBySubworkflow` map of `validateSubworkflowArguments`, kept as
the entry list the JavaScript `Map` constructor receives. -/
def paramsBySubworkflow (app : WorkflowApp) : List (String × SubworkflowParams) :=
  app.subworkflows.map (fun x => (x.name, ⟨requiredParamNames x, optionalParamNames x⟩))

/-- Lookup in a JavaScript `Map` built from an entry list: `new Map(entries)`
lets a later entry overwrite an earlier one with the same key, so lookup
returns the value of the last matching entry. -/
def jsMapGet (entries : List (String × SubworkflowParams)) (key : String) :
    Option SubworkflowParams :=
  (entries.reverse.find? (fun e => e.1 == key)).map Prod.snd

/-- Key membership of the same JavaScript `Map`. -/
def jsMapHas (entries : List (String × SubworkflowParams)) (key : String) : Bool :=
  (jsMapGet entries key).isSome

/-- Serialization of a string array by `JSON.stringify`, as used in the
call-argument issue messages.  Quotation marks and backslashes inside names
are escaped; other escapes never occur in the properties proved below. -/
def jsonStringifyStringArray (xs : List String) : String :=
  let quote := String.singleton (Char.ofNat 34)
  let backslash := String.singleton (Char.ofNat 92)
  let escapeChar := fun (c : Char) =>
    if c = Char.ofNat 34 then backslash ++ quote
    else if c = Char.ofNat 92 then backslash ++ backslash
    else String.singleton c
  let escape := fun (s : String) => String.join (s.toList.map escapeChar)
  "[" ++ String.intercalate "," (xs.map (fun x => quote ++ escape x ++ quote)) ++ "]"

/-- The loop body of `findIssuesInCallArguments`, for one visited step: a call
step whose target is a key of the parameter map yields one issue listing the
required-but-not-provided names when that list is non-empty, then one issue
listing the provided-but-not-declared names when that list is non-empty. -/
def callArgumentIssues (argumentBySubworkflowName : List (String × SubworkflowParams))
    (ns : NamedWorkflowStep) : List WorkflowIssue :=
  match ns.step with
  | .callStep target args =>
      if jsMapHas argumentBySubworkflowName target then
        let requiredArgs :=
          ((jsMapGet argumentBySubworkflowName target).map SubworkflowParams.required).getD []
        let optionalArgs :=
          ((jsMapGet argumentBySubworkflowName target).map SubworkflowParams.optional).getD []
        let requiredAndOptionalArgs := requiredArgs ++ optionalArgs
        let providedArgs := args.getD []
        let requiredButNotProvided :=
          requiredArgs.filter (fun x => !(providedArgs.contains x))
        let providedButNotRequired :=
          providedArgs.filter (fun x => !(requiredAndOptionalArgs.contains x))
        (if requiredButNotProvided.length > 0 then
          [⟨"wrongNumberOfCallArguments",
            "Required parameters not provided on call step \"" ++ ns.name ++ "\": "
              ++ jsonStringifyStringArray requiredButNotProvided⟩]
        else [])
        ++ (if providedButNotRequired.length > 0 then
          [⟨"wrongNumberOfCallArguments",
            "Extra arguments provided on call step \"" ++ ns.name ++ "\": "
              ++ jsonStringifyStringArray providedButNotRequired⟩]
        else [])
      else []
  | _ => []

/-- The per-workflow call-argument scan of `src/validation.ts`. -/
def findIssuesInCallArguments (wf : BaseWorkflow)
    (argumentBySubworkflowName : List (String × SubworkflowParams)) : List WorkflowIssue :=
  wf.iterateStepsDepthFirst.flatMap (callArgumentIssues argumentBySubworkflowName)

/-- The `wrongNumberOfCallArguments` check of `src/validation.ts`: scan the
main workflow, then each subworkflow, against the per-subworkflow parameter
map. -/
def validateSubworkflowArguments (app : WorkflowApp) : List WorkflowIssue :=
  findIssuesInCallArguments app.mainWorkflow (paramsBySubworkflow app)
    ++ app.subworkflows.flatMap (fun subw =>
        findIssuesInCallArguments subw (paramsBySubworkflow app))

/-- The ordered, named validator map of `validate` in `src/validation.ts`. -/
def validatorList : List (String × (WorkflowApp → List WorkflowIssue)) :=
  [("invalidWorkflowName", validateWorkflowNames),
   ("duplicatedStepName", validateNoDuplicateStepNames),
   ("duplicatedSubworkflowName", validateNoDuplicateSubworkflowNames),
   ("missingJumpTarget", validateJumpTargets),
   ("wrongNumberOfCallArguments", validateSubworkflowArguments)]

/-- The five check identifiers, in declaration order. -/
def checkNames : List String := validatorList.map Prod.fst

/-- The issue list accumulated by `validate`: every validator whose name is
not in `disabled` runs, in declaration order; deleting a name not in the map
is a no-op, so unknown names in `disabled` are ignored. -/
def validateIssues (app : WorkflowApp) (disabled : List String) : List WorkflowIssue :=
  (validatorList.filter (fun v => !(disabled.contains v.1))).flatMap (fun v => v.2 app)

/-- The `validate` entry point of `src/validation.ts`: throwing the
`WorkflowValidationError` carrying the issue list is modelled as returning
`Except.error` with that list. -/
def validate (app : WorkflowApp) (disabled : List String) :
    Except (List WorkflowIssue) Unit :=
  if (validateIssues app disabled).length > 0 then
    Except.error (validateIssues app disabled)
  else Except.ok ()

/-- A step object as seen by the `SwitchCondition` constructor of the earlier
step model (`src/steps.ts`, class-per-step variant): only the `name` field is
read there. -/
structure StepV1 : Type where
  name : GWStepName

/-- A switch condition of the earlier step model. -/
structure SwitchConditionV1 : Type where
  condition : String
  next : Option GWStepName
  steps : Option (List StepV1)

/-- The `SwitchCondition` constructor of the earlier step model: it throws
immediately when `options.next` and `options.steps` are both given or both
absent.  Presence is JavaScript truthiness, and both a step object and an
array (even an empty one) are truthy, so presence coincides with `isSome`. -/
def SwitchConditionV1.make (cond : String) (next : Option StepV1)
    (steps : Option (List StepV1)) : Except String SwitchConditionV1 :=
  if (next.isSome && steps.isSome) || (next.isNone && steps.isNone) then
    Except.error
      "Exactly one of \"next\" or \"steps\" must be defined in a switch condition"
  else
    Except.ok ⟨cond, next.map StepV1.name, steps⟩

/-- The claim-side resolution condition for one step's jump references: a call
target is dotted, an in-scope step name, or a declared subworkflow name; every
present switch target (top-level or per condition) is an in-scope step name or
the literal `"end"`. -/
def stepTargetsResolve (names subNames : List String) (ns : NamedWorkflowStep) : Bool :=
  match ns.step with
  | .callStep target _ =>
      isRuntimeFunction target || names.contains target || subNames.contains target
  | .switchStep conds next =>
      (match next with
       | some v => names.contains v || v == "end"
       | none => true)
      && conds.all (fun c =>
        match c.next with
        | some v => names.contains v || v == "end"
        | none => true)
  | _ => true

/-- The claim-side arity condition for one step: a call whose target is a key
of the parameter map supplies every required name and nothing outside the
union of required and optional names. -/
def callArityOk (m : List (String × SubworkflowParams)) (ns : NamedWorkflowStep) : Bool :=
  match ns.step with
  | .callStep target args =>
      (match jsMapGet m target with
       | some ps =>
          ps.required.all (fun r => (args.getD []).contains r)
            && (args.getD []).all (fun p => (ps.required ++ ps.optional).contains p)
       | none => true)
  | _ => true

/-- Example application: a well-formed main workflow calling a declared
subworkflow with exactly its required argument. -/
def appValid : WorkflowApp :=
  ⟨MainWorkflow
    [⟨0, "assign_name", .assignStep⟩,
     ⟨1, "call_subworkflow", .callStep "say_hello" (some ["name"])⟩] none,
   [⟨"say_hello", [⟨2, "log_greetings", .callStep "sys.log" (some ["text"])⟩],
     some [⟨"name", none⟩]⟩]⟩

/-- Example application: well-formed steps and jumps, but its only subworkflow
has an empty name. -/
def appEmptySubName : WorkflowApp :=
  ⟨MainWorkflow [] none, [⟨"", [], none⟩]⟩

/-- Example application: two main-workflow steps named `s1`. -/
def appDupStep : WorkflowApp :=
  ⟨MainWorkflow
    [⟨0, "s1", .assignStep⟩,
     ⟨1, "s1", .callStep "sys.log" (some ["text"])⟩] none,
   []⟩

/-- Example application: a switch step whose top-level `next` is the empty
string, which resolves to nothing. -/
def appEmptyNext : WorkflowApp :=
  ⟨MainWorkflow [⟨0, "s1", .switchStep [] (some "")⟩] none, []⟩

/-- Example application: a subworkflow named `"main"`. -/
def appMainSubName : WorkflowApp :=
  ⟨MainWorkflow [] none, [⟨"main", [], none⟩]⟩

/-- Example workflow with nested steps and distinct object identifiers. -/
def wfNested : BaseWorkflow :=
  ⟨"main",
   [⟨0, "outer", .forStep [⟨1, "inner", .assignStep⟩]⟩,
    ⟨2, "last", .returnStep⟩], none⟩

/-- Example application: two subworkflows named `helper` with different
parameter lists, and a call targeting `helper`. -/
def appDupHelper : WorkflowApp :=
  ⟨MainWorkflow [⟨0, "c1", .callStep "helper" (some ["x"])⟩] none,
   [⟨"helper", [], some [⟨"a", none⟩]⟩,
    ⟨"helper", [], some [⟨"x", none⟩]⟩]⟩

mutual
/-- State invariant of the visit: the returned visited set is the initial one
extended by exactly the identifiers of the yielded steps; yielded identifiers
are pairwise distinct and fresh with respect to the initial visited set. -/
theorem visitPreOrder_state (s : NamedWorkflowStep) (visited : List Nat) :
    (visitPreOrder s visited).2
        = ((visitPreOrder s visited).1.map NamedWorkflowStep.oid).reverse ++ visited
    ∧ ((visitPreOrder s visited).1.map NamedWorkflowStep.oid).Nodup
    ∧ ∀ i ∈ (visitPreOrder s visited).1.map NamedWorkflowStep.oid, i ∉ visited := by
  rw [visitPreOrder]
  by_cases h : s.oid ∈ visited
  · simp [h]
  · have ih := visitPreOrderList_state s.step.nestedSteps (s.oid :: visited)
    simp only [h, if_false]
    refine ⟨?_, ?_, ?_⟩
    · simp only [List.map_cons, List.reverse_cons]
      rw [ih.1]
      simp
    · simp only [List.map_cons, List.nodup_cons]
      refine ⟨fun hmem => ?_, ih.2.1⟩
      exact (ih.2.2 _ hmem) (List.mem_cons_self _ _)
    · intro i hi
      simp only [List.map_cons, List.mem_cons] at hi
      rcases hi with rfl | hi
      · exact h
      · intro hv
        exact (ih.2.2 _ hi) (List.mem_cons_of_mem _ hv)
termination_by sizeOf s
decreasing_by
  have h1 := sizeOf_nestedSteps_le s.step
  have h2 := sizeOf_step_lt s
  omega

/-- State invariant of the visit loop over a step list. -/
theorem visitPreOrderList_state (pending : List NamedWorkflowStep) (visited : List Nat) :
    (visitPreOrderList pending visited).2
        = ((visitPreOrderList pending visited).1.map NamedWorkflowStep.oid).reverse ++ visited
    ∧ ((visitPreOrderList pending visited).1.map NamedWorkflowStep.oid).Nodup
    ∧ ∀ i ∈ (visitPreOrderList pending visited).1.map NamedWorkflowStep.oid, i ∉ visited := by
  match pending with
  | [] => simp [visitPreOrderList]
  | x :: xs =>
    have ih1 := visitPreOrder_state x visited
    have ih2 := visitPreOrderList_state xs (visitPreOrder x visited).2
    rw [visitPreOrderList]
    refine ⟨?_, ?_, ?_⟩
    · simp only [List.map_append, List.reverse_append]
      rw [ih2.1, ih1.1]
      simp
    · rw [List.map_append, List.nodup_append]
      refine ⟨ih1.2.1, ih2.2.1, ?_⟩
      intro a ha hb
      have := ih2.2.2 _ hb
      rw [ih1.1] at this
      exact this (by simp [ha])
    · intro i hi
      rw [List.map_append, List.mem_append] at hi
      rcases hi with hi | hi
      · exact ih1.2.2 _ hi
      · intro hv
        have := ih2.2.2 _ hi
        rw [ih1.1] at this
        exact this (by simp [hv])
termination_by sizeOf pending
decreasing_by
  all_goals (simp; try omega)
end

mutual
/-- When the pre-order expansion of a step has pairwise distinct object
identifiers, none of which is already visited, the visit yields exactly that
expansion. -/
theorem visitPreOrder_eq_preorder (s : NamedWorkflowStep) (visited : List Nat)
    (hnodup : ((preorderStep s).map NamedWorkflowStep.oid).Nodup)
    (hdisj : ∀ i ∈ (preorderStep s).map NamedWorkflowStep.oid, i ∉ visited) :
    visitPreOrder s visited
      = (preorderStep s, ((preorderStep s).map NamedWorkflowStep.oid).reverse ++ visited) := by
  rw [preorderStep] at hnodup hdisj ⊢
  have hs : s.oid ∉ visited := hdisj s.oid (by simp)
  rw [visitPreOrder]
  simp only [hs, if_false]
  simp only [List.map_cons, List.nodup_cons] at hnodup
  have ih := visitPreOrderList_eq_preorder s.step.nestedSteps (s.oid :: visited)
    hnodup.2
    (by
      intro i hi
      simp only [List.mem_cons]
      push_neg
      refine ⟨fun he => hnodup.1 (he ▸ hi), hdisj i (by simp [hi])⟩)
  rw [ih]
  simp
termination_by sizeOf s
decreasing_by
  have h1 := sizeOf_nestedSteps_le s.step
  have h2 := sizeOf_step_lt s
  omega

/-- List version of `visitPreOrder_eq_preorder`. -/
theorem visitPreOrderList_eq_preorder (pending : List NamedWorkflowStep) (visited : List Nat)
    (hnodup : ((preorderList pending).map NamedWorkflowStep.oid).Nodup)
    (hdisj : ∀ i ∈ (preorderList pending).map NamedWorkflowStep.oid, i ∉ visited) :
    visitPreOrderList pending visited
      = (preorderList pending,
         ((preorderList pending).map NamedWorkflowStep.oid).reverse ++ visited) := by
  match pending with
  | [] => simp [visitPreOrderList, preorderList]
  | x :: xs =>
    rw [preorderList] at hnodup hdisj ⊢
    rw [List.map_append, List.nodup_append] at hnodup
    have ih1 := visitPreOrder_eq_preorder x visited hnodup.1
      (fun i hi => hdisj i (by rw [List.map_append, List.mem_append]; exact Or.inl hi))
    have ih2 := visitPreOrderList_eq_preorder xs
      (((preorderStep x).map NamedWorkflowStep.oid).reverse ++ visited)
      hnodup.2.1
      (by
        intro i hi
        rw [List.mem_append, List.mem_reverse]
        push_neg
        refine ⟨fun hmem => hnodup.2.2 hmem hi,
          hdisj i (by rw [List.map_append, List.mem_append]; exact Or.inr hi)⟩)
    rw [visitPreOrderList]
    rw [ih1]
    simp only at ih2 ⊢
    rw [ih2]
    simp
termination_by sizeOf pending
decreasing_by
  all_goals (simp; try omega)
end

/-- Claim C7: on a workflow whose step nesting forms a tree (pre-order
expansion has pairwise distinct object identifiers), `iterateStepsDepthFirst`
yields exactly the depth-first pre-order sequence of its named-step pairs,
parent before nested steps, siblings in declared order, starting from the
top-level list; and on every workflow, even one sharing a step object between
two paths, no object is yielded twice (the yielded identifiers are pairwise
distinct), the traversal being total by construction. -/
theorem c7_iterate_depth_first :
    (∀ wf : BaseWorkflow, ((preorderList wf.steps).map NamedWorkflowStep.oid).Nodup →
        wf.iterateStepsDepthFirst = preorderList wf.steps)
    ∧ (∀ wf : BaseWorkflow,
        ((wf.iterateStepsDepthFirst).map NamedWorkflowStep.oid).Nodup) := by
  constructor
  · intro wf h
    rw [BaseWorkflow.iterateStepsDepthFirst,
      visitPreOrderList_eq_preorder wf.steps [] h (by simp)]
  · intro wf
    exact (visitPreOrderList_state wf.steps []).2.1

/-- Witness for C7 at a concrete nested workflow. -/
theorem c7_witness :
    ((preorderList wfNested.steps).map NamedWorkflowStep.oid).Nodup
    ∧ wfNested.iterateStepsDepthFirst = preorderList wfNested.steps := by
  have hsteps : wfNested.steps
      = [⟨0, "outer", .forStep [⟨1, "inner", .assignStep⟩]⟩,
         ⟨2, "last", .returnStep⟩] := rfl
  have h : ((preorderList wfNested.steps).map NamedWorkflowStep.oid).Nodup := by
    rw [hsteps]
    simp [preorderList, preorderStep, WorkflowStep.nestedSteps,
      NamedWorkflowStep.oid, NamedWorkflowStep.step]
  exact ⟨h, c7_iterate_depth_first.1 wfNested h⟩

/-- Characterization of the seen/duplicates scan: the duplicates set ends
empty exactly when it starts empty, the scanned list has no repeats, and no
scanned name was already seen. -/
theorem dupScan_eq_nil_iff (l : List String) (seen dups : List String) :
    (l.foldl dupScanStep (seen, dups)).2 = []
      ↔ dups = [] ∧ l.Nodup ∧ ∀ x ∈ l, x ∉ seen := by
  induction l generalizing seen dups with
  | nil => simp
  | cons x xs ih =>
    simp only [List.foldl_cons, dupScanStep]
    by_cases hx : x ∈ seen
    · have hc : seen.contains x = true := by simpa using hx
      by_cases hxd : x ∈ dups
      · have hcd : dups.contains x = true := by simpa using hxd
        simp only [hc, hcd, if_true]
        rw [ih]
        constructor
        · rintro ⟨rfl, -, -⟩
          exact absurd hxd (List.not_mem_nil x)
        · rintro ⟨-, -, hns⟩
          exact absurd hx (hns x (by simp))
      · have hcd : dups.contains x = false := by simpa using hxd
        simp only [hc, hcd, if_true, Bool.false_eq_true, if_false]
        rw [ih]
        constructor
        · rintro ⟨hnil, -, -⟩
          exact absurd hnil (by simp)
        · rintro ⟨-, -, hns⟩
          exact absurd hx (hns x (by simp))
    · have hc : seen.contains x = false := by simpa using hx
      simp only [hc, Bool.false_eq_true, if_false]
      rw [ih]
      constructor
      · rintro ⟨hnil, hnodup, hns⟩
        have hxxs : x ∉ xs := fun hmem => (hns x hmem) (by simp)
        refine ⟨hnil, List.nodup_cons.mpr ⟨hxxs, hnodup⟩, fun y hy => ?_⟩
        rcases List.mem_cons.mp hy with rfl | hy
        · exact hx
        · intro hseen
          exact (hns y hy) (by simp [hseen])
      · rintro ⟨hnil, hnodup, hns⟩
        rcases List.nodup_cons.mp hnodup with ⟨hxxs, hnodup2⟩
        refine ⟨hnil, hnodup2, fun y hy => ?_⟩
        intro hmem
        rcases List.mem_append.mp hmem with hmem | hmem
        · exact (hns y (by simp [hy])) hmem
        · simp only [List.mem_singleton] at hmem
          exact hxxs (hmem ▸ hy)

/-- The per-workflow duplicate collection is empty exactly when the workflow's
depth-first step names have no repeats. -/
theorem collectDuplicateStepName_eq_nil_iff (wf : BaseWorkflow) :
    collectDuplicateStepName wf = [] ↔ (workflowStepNames wf).Nodup := by
  rw [collectDuplicateStepName, dupScan_eq_nil_iff]
  simp

/-- Every issue of the `invalidWorkflowName` check carries that type. -/
theorem validateWorkflowNames_types (app : WorkflowApp) :
    ∀ i ∈ validateWorkflowNames app, i.type = "invalidWorkflowName" := by
  intro i hi
  rw [validateWorkflowNames] at hi
  rcases List.mem_append.mp hi with h | h <;>
    (split_ifs at h <;> simp_all)

/-- Every issue of the `duplicatedStepName` check carries that type. -/
theorem validateNoDuplicateStepNames_types (app : WorkflowApp) :
    ∀ i ∈ validateNoDuplicateStepNames app, i.type = "duplicatedStepName" := by
  intro i hi
  rw [validateNoDuplicateStepNames] at hi
  rcases List.mem_append.mp hi with h | h
  · split_ifs at h <;> simp_all
  · rcases List.mem_flatMap.mp h with ⟨sw, -, hmem⟩
    split_ifs at hmem <;> simp_all

/-- Every issue of the `duplicatedSubworkflowName` check carries that type. -/
theorem validateNoDuplicateSubworkflowNames_types (app : WorkflowApp) :
    ∀ i ∈ validateNoDuplicateSubworkflowNames app, i.type = "duplicatedSubworkflowName" := by
  intro i hi
  rw [validateNoDuplicateSubworkflowNames] at hi
  split_ifs at hi <;> simp_all

/-- Every issue reported for one visited step by the jump-target scan carries
the `missingJumpTarget` type. -/
theorem nextTargetIssue_types (sn : List String) (nm : String) (next : Option GWStepName) :
    ∀ i ∈ nextTargetIssue sn nm next, i.type = "missingJumpTarget" := by
  intro i hi
  rcases next with _ | v <;> simp only [nextTargetIssue] at hi
  · simp at hi
  · split_ifs at hi <;> simp_all

/-- Every issue reported for one visited step by the jump-target scan carries
the `missingJumpTarget` type. -/
theorem stepJumpTargetIssues_types (sn subs : List String) (ns : NamedWorkflowStep) :
    ∀ i ∈ stepJumpTargetIssues sn subs ns, i.type = "missingJumpTarget" := by
  intro i hi
  rcases hns : ns.step with _ | ⟨t, a⟩ | ⟨conds, nxt⟩ | _ | _ | _ | _ | _ | _ <;>
    simp only [stepJumpTargetIssues, hns] at hi
  case callStep =>
    split_ifs at hi <;> simp_all
  case switchStep =>
    rcases List.mem_append.mp hi with h | h
    · exact nextTargetIssue_types _ _ _ _ h
    · rcases List.mem_flatMap.mp h with ⟨c, -, hmem⟩
      exact nextTargetIssue_types _ _ _ _ hmem
  all_goals simp at hi

/-- Every issue reported for one visited step by the call-argument scan
carries the `wrongNumberOfCallArguments` type. -/
theorem callArgumentIssues_types (m : List (String × SubworkflowParams))
    (ns : NamedWorkflowStep) :
    ∀ i ∈ callArgumentIssues m ns, i.type = "wrongNumberOfCallArguments" := by
  intro i hi
  rcases hns : ns.step with _ | ⟨t, a⟩ | _ | _ | _ | _ | _ | _ | _ <;>
    simp only [callArgumentIssues, hns] at hi
  case callStep =>
    split_ifs at hi <;> simp at hi <;>
      (rcases hi with rfl | rfl <;> rfl)
  all_goals simp at hi

/-- Every issue of the `missingJumpTarget` check carries that type. -/
theorem validateJumpTargets_types (app : WorkflowApp) :
    ∀ i ∈ validateJumpTargets app, i.type = "missingJumpTarget" := by
  intro i hi
  rw [validateJumpTargets] at hi
  rcases List.mem_append.mp hi with h | h
  · rcases List.mem_flatMap.mp h with ⟨ns, -, hmem⟩
    exact stepJumpTargetIssues_types _ _ _ _ hmem
  · rcases List.mem_flatMap.mp h with ⟨sw, -, hmem⟩
    rcases List.mem_flatMap.mp hmem with ⟨ns, -, hmem'⟩
    exact stepJumpTargetIssues_types _ _ _ _ hmem'

/-- Every issue of the `wrongNumberOfCallArguments` check carries that
type. -/
theorem validateSubworkflowArguments_types (app : WorkflowApp) :
    ∀ i ∈ validateSubworkflowArguments app, i.type = "wrongNumberOfCallArguments" := by
  intro i hi
  rw [validateSubworkflowArguments] at hi
  rcases List.mem_append.mp hi with h | h
  · rcases List.mem_flatMap.mp h with ⟨ns, -, hmem⟩
    exact callArgumentIssues_types _ _ _ hmem
  · rcases List.mem_flatMap.mp h with ⟨sw, -, hmem⟩
    rcases List.mem_flatMap.mp hmem with ⟨ns, -, hmem'⟩
    exact callArgumentIssues_types _ _ _ hmem'

/-- Every validator of the pipeline only produces issues typed with its own
check name. -/
theorem validator_issue_types :
    ∀ p ∈ validatorList, ∀ app : WorkflowApp, ∀ i ∈ p.2 app, i.type = p.1 := by
  intro p hp app i hi
  rw [validatorList] at hp
  simp only [List.mem_cons, List.mem_singleton] at hp
  rcases hp with rfl | rfl | rfl | rfl | rfl | h
  · exact validateWorkflowNames_types app i hi
  · exact validateNoDuplicateStepNames_types app i hi
  · exact validateNoDuplicateSubworkflowNames_types app i hi
  · exact validateJumpTargets_types app i hi
  · exact validateSubworkflowArguments_types app i hi
  · exact absurd h (List.not_mem_nil p)

/-- An issue produced by a pipeline validator whose name is not disabled
appears in the aggregated issue list. -/
theorem mem_validateIssues_of_mem (nm : String) (f : WorkflowApp → List WorkflowIssue)
    (hp : (nm, f) ∈ validatorList) {app : WorkflowApp} {i : WorkflowIssue}
    (hi : i ∈ f app) {disabled : List String} (hnm : nm ∉ disabled) :
    i ∈ validateIssues app disabled := by
  rw [validateIssues]
  refine List.mem_flatMap.mpr ⟨(nm, f), ?_, hi⟩
  refine List.mem_filter.mpr ⟨hp, ?_⟩
  simpa using hnm

/-- Every aggregated issue carries the name of one of the five checks, and
never the name of a disabled check. -/
theorem validateIssues_types (app : WorkflowApp) (disabled : List String) :
    ∀ i ∈ validateIssues app disabled, i.type ∈ checkNames ∧ i.type ∉ disabled := by
  intro i hi
  rw [validateIssues] at hi
  rcases List.mem_flatMap.mp hi with ⟨p, hp, hmem⟩
  rcases List.mem_filter.mp hp with ⟨hpl, hcond⟩
  have htype := validator_issue_types p hpl app i hmem
  constructor
  · rw [htype, checkNames]
    exact List.mem_map_of_mem Prod.fst hpl
  · rw [htype]
    simpa using hcond

/-- With a non-empty aggregated issue list, `validate` raises carrying exactly
that list. -/
theorem validate_error_of_ne_nil {app : WorkflowApp} {disabled : List String}
    (h : validateIssues app disabled ≠ []) :
    validate app disabled = Except.error (validateIssues app disabled) := by
  rw [validate, if_pos (by simpa [List.length_pos] using h)]

/-- With an empty aggregated issue list, `validate` returns normally. -/
theorem validate_ok_iff (app : WorkflowApp) (disabled : List String) :
    validate app disabled = Except.ok () ↔ validateIssues app disabled = [] := by
  rw [validate]
  split_ifs with h
  · simp only [reduceCtorEq, false_iff]
    intro hnil
    rw [hnil] at h
    simp at h
  · simpa [List.length_eq_zero] using Nat.eq_zero_of_not_pos h

/-- The workflow-name check passes when every subworkflow name is non-empty
and different from `"main"`. -/
theorem validateWorkflowNames_eq_nil {app : WorkflowApp}
    (h : ∀ sw ∈ app.subworkflows, sw.name ≠ "main" ∧ sw.name ≠ "") :
    validateWorkflowNames app = [] := by
  rw [validateWorkflowNames]
  have h1 : (app.subworkflows.map BaseWorkflow.name).any (fun x => x == "main") = false := by
    rw [List.any_eq_false]
    intro x hx
    rcases List.mem_map.mp hx with ⟨sw, hsw, rfl⟩
    simpa using (h sw hsw).1
  have h2 : (app.subworkflows.map BaseWorkflow.name).any (fun x => x == "") = false := by
    rw [List.any_eq_false]
    intro x hx
    rcases List.mem_map.mp hx with ⟨sw, hsw, rfl⟩
    simpa using (h sw hsw).2
  simp [h1, h2]

/-- The duplicate-step-name check passes when every workflow's depth-first
step names have no repeats. -/
theorem validateNoDuplicateStepNames_eq_nil {app : WorkflowApp}
    (h : ∀ wf, (wf = app.mainWorkflow ∨ wf ∈ app.subworkflows) → (workflowStepNames wf).Nodup) :
    validateNoDuplicateStepNames app = [] := by
  rw [validateNoDuplicateStepNames]
  have hmain : collectDuplicateStepName app.mainWorkflow = [] :=
    (collectDuplicateStepName_eq_nil_iff _).mpr (h _ (Or.inl rfl))
  rw [hmain]
  simp only [List.length_nil, gt_iff_lt, Nat.lt_irrefl, if_false, List.nil_append]
  rw [List.flatMap_eq_nil_iff]
  intro sw hsw
  have hsub : collectDuplicateStepName sw = [] :=
    (collectDuplicateStepName_eq_nil_iff _).mpr (h _ (Or.inr hsw))
  simp [hsub]

/-- The duplicate-subworkflow-name check passes when the subworkflow names
have no repeats. -/
theorem validateNoDuplicateSubworkflowNames_eq_nil {app : WorkflowApp}
    (h : (app.subworkflows.map BaseWorkflow.name).Nodup) :
    validateNoDuplicateSubworkflowNames app = [] := by
  rw [validateNoDuplicateSubworkflowNames]
  have : ((app.subworkflows.map BaseWorkflow.name).foldl dupScanStep ([], [])).2 = [] := by
    rw [dupScan_eq_nil_iff]
    simp [h]
  simp [this]

/-- A present `next` target that resolves produces no issue. -/
theorem nextTargetIssue_eq_nil {sn : List String} {nm : String} {next : Option GWStepName}
    (h : ∀ v, next = some v → (sn.contains v || v == "end") = true) :
    nextTargetIssue sn nm next = [] := by
  rcases next with _ | v
  · rfl
  · rw [nextTargetIssue, validNextTarget, h v rfl]
    simp

/-- A step whose jump references all resolve produces no jump-target issue. -/
theorem stepJumpTargetIssues_eq_nil {sn subs : List String} {ns : NamedWorkflowStep}
    (h : stepTargetsResolve sn subs ns = true) :
    stepJumpTargetIssues sn subs ns = [] := by
  rcases hns : ns.step with _ | ⟨t, a⟩ | ⟨conds, nxt⟩ | _ | _ | _ | _ | _ | _ <;>
    simp only [stepTargetsResolve, hns] at h <;>
    simp only [stepJumpTargetIssues, hns]
  case callStep =>
    rw [validCallTarget]
    rw [show (isRuntimeFunction t || sn.contains t || subs.contains t) = true from by
      simpa using h]
    simp
  case switchStep =>
    rw [Bool.and_eq_true] at h
    have htop : nextTargetIssue sn ns.name nxt = [] := by
      refine nextTargetIssue_eq_nil (fun v hv => ?_)
      rw [hv] at h
      simpa using h.1
    rw [htop, List.nil_append, List.flatMap_eq_nil_iff]
    intro c hc
    have hcr := List.all_eq_true.mp h.2 c hc
    refine nextTargetIssue_eq_nil (fun v hv => ?_)
    rw [hv] at hcr
    simpa using hcr

/-- A call step whose supplied argument names match the declared parameters
produces no call-argument issue. -/
theorem callArgumentIssues_eq_nil {m : List (String × SubworkflowParams)}
    {ns : NamedWorkflowStep} (h : callArityOk m ns = true) :
    callArgumentIssues m ns = [] := by
  rcases hns : ns.step with _ | ⟨t, a⟩ | _ | _ | _ | _ | _ | _ | _ <;>
    simp only [callArityOk, hns] at h <;>
    simp only [callArgumentIssues, hns]
  case callStep =>
    rcases hget : jsMapGet m t with _ | ps
    · rw [jsMapHas, hget]
      simp
    · rw [hget] at h
      rw [Bool.and_eq_true, List.all_eq_true, List.all_eq_true] at h
      have hreq : (ps.required.filter (fun x => !((a.getD []).contains x))) = [] := by
        rw [List.filter_eq_nil_iff]
        intro x hx
        rw [h.1 x hx]
        simp
      have hprov : ((a.getD []).filter
          (fun x => !((ps.required ++ ps.optional).contains x))) = [] := by
        rw [List.filter_eq_nil_iff]
        intro x hx
        rw [h.2 x hx]
        simp
      simp only [jsMapHas, hget, Option.isSome_some, if_true, Option.map_some',
        Option.getD_some]
      rw [hreq, hprov]
      simp

/-- A workflow all of whose steps' jump references resolve produces no
jump-target issues. -/
theorem validateJumpTargetsInWorkflow_eq_nil {wf : BaseWorkflow} {subNames : List String}
    (h : ∀ ns ∈ wf.iterateStepsDepthFirst,
      stepTargetsResolve (workflowStepNames wf) subNames ns = true) :
    validateJumpTargetsInWorkflow wf subNames = [] := by
  rw [validateJumpTargetsInWorkflow, List.flatMap_eq_nil_iff]
  exact fun ns hns => stepJumpTargetIssues_eq_nil (h ns hns)

/-- The jump-target check passes when every step of every workflow has
resolving jump references. -/
theorem validateJumpTargets_eq_nil {app : WorkflowApp}
    (h : ∀ wf, (wf = app.mainWorkflow ∨ wf ∈ app.subworkflows) →
      ∀ ns ∈ wf.iterateStepsDepthFirst,
        stepTargetsResolve (workflowStepNames wf) (app.subworkflows.map BaseWorkflow.name) ns
          = true) :
    validateJumpTargets app = [] := by
  simp only [validateJumpTargets]
  rw [validateJumpTargetsInWorkflow_eq_nil (h _ (Or.inl rfl)), List.nil_append,
    List.flatMap_eq_nil_iff]
  exact fun sw hsw => validateJumpTargetsInWorkflow_eq_nil (h _ (Or.inr hsw))

/-- A workflow all of whose calls have matching arities produces no
call-argument issues. -/
theorem findIssuesInCallArguments_eq_nil {wf : BaseWorkflow}
    {m : List (String × SubworkflowParams)}
    (h : ∀ ns ∈ wf.iterateStepsDepthFirst, callArityOk m ns = true) :
    findIssuesInCallArguments wf m = [] := by
  rw [findIssuesInCallArguments, List.flatMap_eq_nil_iff]
  exact fun ns hns => callArgumentIssues_eq_nil (h ns hns)

/-- The call-argument check passes when every call of every workflow has a
matching arity. -/
theorem validateSubworkflowArguments_eq_nil {app : WorkflowApp}
    (h : ∀ wf, (wf = app.mainWorkflow ∨ wf ∈ app.subworkflows) →
      ∀ ns ∈ wf.iterateStepsDepthFirst, callArityOk (paramsBySubworkflow app) ns = true) :
    validateSubworkflowArguments app = [] := by
  rw [validateSubworkflowArguments]
  rw [findIssuesInCallArguments_eq_nil (h _ (Or.inl rfl)), List.nil_append,
    List.flatMap_eq_nil_iff]
  exact fun sw hsw => findIssuesInCallArguments_eq_nil (h _ (Or.inr hsw))

/-- Claim C1 (amended): `validate` returns normally on every application in
which, additionally to the claimed hypotheses (duplicate-free step names per
workflow, resolving call and switch jump targets, exact call arities), every
subworkflow name is non-empty, differs from `"main"`, and the subworkflow
names are pairwise distinct.  The extra hypotheses are needed because the
`invalidWorkflowName` and `duplicatedSubworkflowName` checks also run. -/
theorem c1_valid_app_passes (app : WorkflowApp)
    (hsubnames : ∀ sw ∈ app.subworkflows, sw.name ≠ "main" ∧ sw.name ≠ "")
    (hnodupsub : (app.subworkflows.map BaseWorkflow.name).Nodup)
    (hnodupsteps : ∀ wf, (wf = app.mainWorkflow ∨ wf ∈ app.subworkflows) →
      (workflowStepNames wf).Nodup)
    (htargets : ∀ wf, (wf = app.mainWorkflow ∨ wf ∈ app.subworkflows) →
      ∀ ns ∈ wf.iterateStepsDepthFirst,
        stepTargetsResolve (workflowStepNames wf) (app.subworkflows.map BaseWorkflow.name) ns
          = true)
    (harity : ∀ wf, (wf = app.mainWorkflow ∨ wf ∈ app.subworkflows) →
      ∀ ns ∈ wf.iterateStepsDepthFirst, callArityOk (paramsBySubworkflow app) ns = true) :
    validate app [] = Except.ok () := by
  rw [validate_ok_iff]
  have h1 := validateWorkflowNames_eq_nil hsubnames
  have h2 := validateNoDuplicateStepNames_eq_nil hnodupsteps
  have h3 := validateNoDuplicateSubworkflowNames_eq_nil hnodupsub
  have h4 := validateJumpTargets_eq_nil htargets
  have h5 := validateSubworkflowArguments_eq_nil harity
  rw [validateIssues]
  simp [validatorList, h1, h2, h3, h4, h5]

/-- Counterexample to claim C1 as stated: an application with duplicate-free
step names, no jump references at all and no calls at all, whose only
subworkflow has an empty name.  All claimed hypotheses hold, yet `validate`
raises (with an `invalidWorkflowName` issue). -/
theorem c1_counterexample :
    (∀ wf, (wf = appEmptySubName.mainWorkflow ∨ wf ∈ appEmptySubName.subworkflows) →
      (workflowStepNames wf).Nodup)
    ∧ (∀ wf, (wf = appEmptySubName.mainWorkflow ∨ wf ∈ appEmptySubName.subworkflows) →
      ∀ ns ∈ wf.iterateStepsDepthFirst,
        stepTargetsResolve (workflowStepNames wf)
          (appEmptySubName.subworkflows.map BaseWorkflow.name) ns = true)
    ∧ (∀ wf, (wf = appEmptySubName.mainWorkflow ∨ wf ∈ appEmptySubName.subworkflows) →
      ∀ ns ∈ wf.iterateStepsDepthFirst,
        callArityOk (paramsBySubworkflow appEmptySubName) ns = true)
    ∧ validate appEmptySubName [] ≠ Except.ok () := by
  have hiter : ∀ wf, (wf = appEmptySubName.mainWorkflow ∨ wf ∈ appEmptySubName.subworkflows) →
      wf.iterateStepsDepthFirst = [] := by
    intro wf hwf
    rcases hwf with rfl | hwf
    · have hsteps : appEmptySubName.mainWorkflow.steps = [] := rfl
      rw [BaseWorkflow.iterateStepsDepthFirst, hsteps, visitPreOrderList]
    · simp only [appEmptySubName, List.mem_singleton] at hwf
      subst hwf
      rw [BaseWorkflow.iterateStepsDepthFirst, visitPreOrderList]
  refine ⟨?_, ?_, ?_, ?_⟩
  · intro wf hwf
    simp [workflowStepNames, hiter wf hwf]
  · intro wf hwf ns hns
    rw [hiter wf hwf] at hns
    simp at hns
  · intro wf hwf ns hns
    rw [hiter wf hwf] at hns
    simp at hns
  · intro hok
    rw [validate_ok_iff] at hok
    have : (⟨"invalidWorkflowName", "Subworkflow must have a non-empty name"⟩ : WorkflowIssue)
        ∈ validateIssues appEmptySubName [] := by
      refine mem_validateIssues_of_mem "invalidWorkflowName"
        validateWorkflowNames (by simp [validatorList]) ?_ (by simp)
      simp [validateWorkflowNames, appEmptySubName]
    rw [hok] at this
    simp at this

/-- Witness for the amended claim C1 at a concrete valid application. -/
theorem c1_witness : validate appValid [] = Except.ok () := by
  have hmainsteps : appValid.mainWorkflow.steps
      = [⟨0, "assign_name", .assignStep⟩,
         ⟨1, "call_subworkflow", .callStep "say_hello" (some ["name"])⟩] := rfl
  have hmain : appValid.mainWorkflow.iterateStepsDepthFirst
      = [⟨0, "assign_name", .assignStep⟩,
         ⟨1, "call_subworkflow", .callStep "say_hello" (some ["name"])⟩] := by
    rw [BaseWorkflow.iterateStepsDepthFirst, hmainsteps]
    simp [visitPreOrderList, visitPreOrder, WorkflowStep.nestedSteps,
      NamedWorkflowStep.oid, NamedWorkflowStep.step]
  have hsub : (⟨"say_hello", [⟨2, "log_greetings", .callStep "sys.log" (some ["text"])⟩],
      some [⟨"name", none⟩]⟩ : BaseWorkflow).iterateStepsDepthFirst
      = [⟨2, "log_greetings", .callStep "sys.log" (some ["text"])⟩] := by
    rw [BaseWorkflow.iterateStepsDepthFirst]
    simp [visitPreOrderList, visitPreOrder, WorkflowStep.nestedSteps,
      NamedWorkflowStep.oid, NamedWorkflowStep.step]
  refine c1_valid_app_passes appValid ?_ ?_ ?_ ?_ ?_
  · intro sw hsw
    simp only [appValid, List.mem_singleton] at hsw
    subst hsw
    exact ⟨by decide, by decide⟩
  · simp [appValid]
  · intro wf hwf
    rcases hwf with rfl | hwf
    · rw [workflowStepNames, hmain]
      decide
    · simp only [appValid, List.mem_singleton] at hwf
      subst hwf
      rw [workflowStepNames, hsub]
      decide
  · intro wf hwf ns hns
    rcases hwf with rfl | hwf
    · rw [hmain] at hns
      rw [workflowStepNames, hmain]
      simp only [List.mem_cons, List.not_mem_nil, or_false] at hns
      rcases hns with rfl | rfl <;> decide
    · simp only [appValid, List.mem_singleton] at hwf
      subst hwf
      rw [hsub] at hns
      rw [workflowStepNames, hsub]
      simp only [List.mem_singleton] at hns
      subst hns
      decide
  · intro wf hwf ns hns
    rcases hwf with rfl | hwf
    · rw [hmain] at hns
      simp only [List.mem_cons, List.not_mem_nil, or_false] at hns
      rcases hns with rfl | rfl <;> decide
    · simp only [appValid, List.mem_singleton] at hwf
      subst hwf
      rw [hsub] at hns
      simp only [List.mem_singleton] at hns
      subst hns
      decide

/-- Length of the per-subworkflow duplicate-issue list: one issue per
subworkflow with duplicated step names, none for the others. -/
theorem dup_issue_flatMap_length (l : List Subworkflow) :
    (l.flatMap (fun subworkflow =>
      if (collectDuplicateStepName subworkflow).length > 0 then
        [(⟨"duplicatedStepName",
          "Duplicated step names in the subworkflow " ++ subworkflow.name ++ ": "
            ++ String.intercalate ", " (collectDuplicateStepName subworkflow)⟩ : WorkflowIssue)]
      else [])).length
      = l.countP (fun wf => decide (¬ (workflowStepNames wf).Nodup)) := by
  induction l with
  | nil => simp
  | cons x xs ih =>
      rw [List.flatMap_cons, List.length_append, ih, List.countP_cons]
      by_cases h : (collectDuplicateStepName x).length > 0
      · have hx : ¬ (workflowStepNames x).Nodup := by
          intro hnodup
          rw [(collectDuplicateStepName_eq_nil_iff x).mpr hnodup] at h
          simp at h
        simp [h, hx]
        omega
      · have hx : (workflowStepNames x).Nodup := by
          rcases List.eq_nil_or_concat (collectDuplicateStepName x) with hnil | ⟨_, _, hc⟩
          · exact (collectDuplicateStepName_eq_nil_iff x).mp hnil
          · rw [hc] at h
            simp at h
        simp [h, hx]

/-- Claim C2: a workflow (main or one subworkflow) whose depth-first expansion
repeats a step name makes `validate` raise with a `duplicatedStepName` issue;
the check emits exactly one issue per workflow with duplicates (not one per
repeat), each combining that workflow's duplicate names; and when every
workflow is individually repeat-free — even if a name occurs in several
different workflows — the check emits nothing. -/
theorem c2_duplicated_step_names :
    (∀ (app : WorkflowApp) (wf : BaseWorkflow),
      (wf = app.mainWorkflow ∨ wf ∈ app.subworkflows) →
      ¬ (workflowStepNames wf).Nodup →
      ∃ issues, validate app [] = Except.error issues
        ∧ ∃ i ∈ issues, i.type = "duplicatedStepName")
    ∧ (∀ app : WorkflowApp,
      (validateNoDuplicateStepNames app).length
        = (app.mainWorkflow :: app.subworkflows).countP
            (fun wf => decide (¬ (workflowStepNames wf).Nodup)))
    ∧ (∀ app : WorkflowApp,
      (∀ wf, (wf = app.mainWorkflow ∨ wf ∈ app.subworkflows) →
        (workflowStepNames wf).Nodup) →
      validateNoDuplicateStepNames app = []) := by
  refine ⟨?_, ?_, ?_⟩
  · intro app wf hwf hdup
    have hcol : collectDuplicateStepName wf ≠ [] := fun h =>
      hdup ((collectDuplicateStepName_eq_nil_iff wf).mp h)
    have hlen : (collectDuplicateStepName wf).length > 0 := by
      rcases List.eq_nil_or_concat (collectDuplicateStepName wf) with hnil | ⟨_, _, hc⟩
      · exact absurd hnil hcol
      · rw [hc]
        simp
    have hmem : ∃ i ∈ validateNoDuplicateStepNames app, i.type = "duplicatedStepName" := by
      rcases hwf with rfl | hwf
      · refine ⟨⟨"duplicatedStepName",
          "Duplicated step names in the main workflow: "
            ++ String.intercalate ", " (collectDuplicateStepName app.mainWorkflow)⟩, ?_, rfl⟩
        rw [validateNoDuplicateStepNames]
        refine List.mem_append.mpr (Or.inl ?_)
        rw [if_pos hlen]
        simp
      · refine ⟨⟨"duplicatedStepName",
          "Duplicated step names in the subworkflow " ++ wf.name ++ ": "
            ++ String.intercalate ", " (collectDuplicateStepName wf)⟩, ?_, rfl⟩
        rw [validateNoDuplicateStepNames]
        refine List.mem_append.mpr (Or.inr ?_)
        refine List.mem_flatMap.mpr ⟨wf, hwf, ?_⟩
        rw [if_pos hlen]
        simp
    rcases hmem with ⟨i, hi, htype⟩
    have hmem2 : i ∈ validateIssues app [] :=
      mem_validateIssues_of_mem "duplicatedStepName"
        validateNoDuplicateStepNames (by simp [validatorList]) hi (by simp)
    have hne : validateIssues app [] ≠ [] := by
      intro hnil
      rw [hnil] at hmem2
      simp at hmem2
    exact ⟨validateIssues app [], validate_error_of_ne_nil hne, i, hmem2, htype⟩
  · intro app
    rw [validateNoDuplicateStepNames, List.length_append, List.countP_cons,
      dup_issue_flatMap_length]
    by_cases h : (collectDuplicateStepName app.mainWorkflow).length > 0
    · have hx : ¬ (workflowStepNames app.mainWorkflow).Nodup := by
        intro hnodup
        rw [(collectDuplicateStepName_eq_nil_iff _).mpr hnodup] at h
        simp at h
      simp [h, hx]
      omega
    · have hx : (workflowStepNames app.mainWorkflow).Nodup := by
        rcases List.eq_nil_or_concat (collectDuplicateStepName app.mainWorkflow)
          with hnil | ⟨_, _, hc⟩
        · exact (collectDuplicateStepName_eq_nil_iff _).mp hnil
        · rw [hc] at h
          simp at h
      simp [h, hx]
  · intro app h
    exact validateNoDuplicateStepNames_eq_nil h

/-- Witness for claim C2 at a main workflow with two steps named `s1`. -/
theorem c2_witness :
    ∃ issues, validate appDupStep [] = Except.error issues
      ∧ ∃ i ∈ issues, i.type = "duplicatedStepName" := by
  refine c2_duplicated_step_names.1 appDupStep appDupStep.mainWorkflow (Or.inl rfl) ?_
  have hmainsteps : appDupStep.mainWorkflow.steps
      = [⟨0, "s1", .assignStep⟩, ⟨1, "s1", .callStep "sys.log" (some ["text"])⟩] := rfl
  have hmain : appDupStep.mainWorkflow.iterateStepsDepthFirst
      = [⟨0, "s1", .assignStep⟩, ⟨1, "s1", .callStep "sys.log" (some ["text"])⟩] := by
    rw [BaseWorkflow.iterateStepsDepthFirst, hmainsteps]
    simp [visitPreOrderList, visitPreOrder, WorkflowStep.nestedSteps,
      NamedWorkflowStep.oid, NamedWorkflowStep.step]
  rw [workflowStepNames, hmain]
  decide

/-- Claim C3: the jump-target scan is the per-step check folded over the
traversal, and a call step is flagged `missingJumpTarget` exactly when its
target contains no dot (character 46), is not a reachable step name, and is
not a declared subworkflow name; in particular a dotted target is never
flagged, whether or not it resolves to anything. -/
theorem c3_call_jump_targets :
    (∀ (wf : BaseWorkflow) (subNames : List String),
      validateJumpTargetsInWorkflow wf subNames
        = wf.iterateStepsDepthFirst.flatMap
            (stepJumpTargetIssues (workflowStepNames wf) subNames))
    ∧ (∀ (sn subNames : List String) (oid : Nat) (name target : String)
        (args : Option (List GWVariableName)),
      stepJumpTargetIssues sn subNames ⟨oid, name, .callStep target args⟩
        = (if ¬ target.toList.contains (Char.ofNat 46) ∧ target ∉ sn ∧ target ∉ subNames then
            [⟨"missingJumpTarget",
              "Call target \"" ++ target ++ "\" in step \"" ++ name ++ "\" not found"⟩]
          else []))
    ∧ (∀ (sn subNames : List String) (oid : Nat) (name target : String)
        (args : Option (List GWVariableName)),
      target.toList.contains (Char.ofNat 46) = true →
      stepJumpTargetIssues sn subNames ⟨oid, name, .callStep target args⟩ = []) := by
  refine ⟨fun wf subNames => rfl, ?_, ?_⟩
  · intro sn subNames oid name target args
    by_cases hdm : Char.ofNat 46 ∈ target.toList <;>
      by_cases hsn : target ∈ sn <;>
      by_cases hsub : target ∈ subNames <;>
        simp [stepJumpTargetIssues, NamedWorkflowStep.step, NamedWorkflowStep.name,
          validCallTarget, isRuntimeFunction, hdm, hsn, hsub]
  · intro sn subNames oid name target args hd
    have hdm : Char.ofNat 46 ∈ target.data := by simpa using hd
    simp [stepJumpTargetIssues, NamedWorkflowStep.step, validCallTarget,
      isRuntimeFunction, hdm]

/-- Witness for claim C3: a dotted target is never flagged. -/
theorem c3_witness :
    stepJumpTargetIssues ["a"] ["b"] ⟨0, "s", .callStep "sys.log" none⟩ = [] :=
  c3_call_jump_targets.2.2 ["a"] ["b"] 0 "s" "sys.log" none (by decide)

/-- Claim C4: for a call step whose target is a declared subworkflow (a key of
the parameter map), the check produces the required-but-missing issue exactly
when some required name is unsupplied, and the extraneous issue exactly when
some supplied name is outside required and optional; both conditions give two
issues for the one call, and a call supplying all required names and only
declared names gives none. -/
theorem c4_call_arguments (m : List (String × SubworkflowParams)) (oid : Nat)
    (name target : String) (args : Option (List GWVariableName))
    (ps : SubworkflowParams) (hget : jsMapGet m target = some ps) :
    (callArgumentIssues m ⟨oid, name, .callStep target args⟩
      = (if (ps.required.filter (fun x => !((args.getD []).contains x))) ≠ [] then
          [⟨"wrongNumberOfCallArguments",
            "Required parameters not provided on call step \"" ++ name ++ "\": "
              ++ jsonStringifyStringArray
                  (ps.required.filter (fun x => !((args.getD []).contains x)))⟩]
        else [])
        ++ (if ((args.getD []).filter (fun x => !((ps.required ++ ps.optional).contains x))) ≠ [] then
          [⟨"wrongNumberOfCallArguments",
            "Extra arguments provided on call step \"" ++ name ++ "\": "
              ++ jsonStringifyStringArray
                  ((args.getD []).filter
                    (fun x => !((ps.required ++ ps.optional).contains x)))⟩]
        else []))
    ∧ ((ps.required.filter (fun x => !((args.getD []).contains x))) ≠ []
        ↔ ∃ r ∈ ps.required, r ∉ args.getD [])
    ∧ (((args.getD []).filter (fun x => !((ps.required ++ ps.optional).contains x))) ≠ []
        ↔ ∃ p ∈ args.getD [], p ∉ ps.required ∧ p ∉ ps.optional)
    ∧ ((∃ r ∈ ps.required, r ∉ args.getD []) →
       (∃ p ∈ args.getD [], p ∉ ps.required ∧ p ∉ ps.optional) →
       (callArgumentIssues m ⟨oid, name, .callStep target args⟩).length = 2)
    ∧ ((∀ r ∈ ps.required, r ∈ args.getD []) →
       (∀ p ∈ args.getD [], p ∈ ps.required ∨ p ∈ ps.optional) →
       callArgumentIssues m ⟨oid, name, .callStep target args⟩ = []) := by
  have heq : callArgumentIssues m ⟨oid, name, .callStep target args⟩
      = (if (ps.required.filter (fun x => !((args.getD []).contains x))) ≠ [] then
          [⟨"wrongNumberOfCallArguments",
            "Required parameters not provided on call step \"" ++ name ++ "\": "
              ++ jsonStringifyStringArray
                  (ps.required.filter (fun x => !((args.getD []).contains x)))⟩]
        else [])
        ++ (if ((args.getD []).filter (fun x => !((ps.required ++ ps.optional).contains x))) ≠ [] then
          [⟨"wrongNumberOfCallArguments",
            "Extra arguments provided on call step \"" ++ name ++ "\": "
              ++ jsonStringifyStringArray
                  ((args.getD []).filter
                    (fun x => !((ps.required ++ ps.optional).contains x)))⟩]
        else []) := by
    simp only [callArgumentIssues, NamedWorkflowStep.step, NamedWorkflowStep.name,
      jsMapHas, hget, Option.isSome_some, if_true, Option.map_some', Option.getD_some]
    congr 1
    · rcases hr : ps.required.filter (fun x => !((args.getD []).contains x)) with _ | _
      · simp
      · simp [hr]
    · rcases hp : (args.getD []).filter (fun x => !((ps.required ++ ps.optional).contains x))
        with _ | _
      · simp
      · simp [hp]
  have hiff1 : (ps.required.filter (fun x => !((args.getD []).contains x))) ≠ []
      ↔ ∃ r ∈ ps.required, r ∉ args.getD [] := by
    rw [Ne, List.filter_eq_nil_iff]
    push_neg
    constructor
    · rintro ⟨r, hr, hb⟩
      exact ⟨r, hr, by simpa using hb⟩
    · rintro ⟨r, hr, hb⟩
      exact ⟨r, hr, by simpa using hb⟩
  have hiff2 : ((args.getD []).filter (fun x => !((ps.required ++ ps.optional).contains x))) ≠ []
      ↔ ∃ p ∈ args.getD [], p ∉ ps.required ∧ p ∉ ps.optional := by
    rw [Ne, List.filter_eq_nil_iff]
    push_neg
    constructor
    · rintro ⟨p, hp, hb⟩
      refine ⟨p, hp, ?_⟩
      have : p ∉ ps.required ++ ps.optional := by simpa using hb
      simpa [List.mem_append] using this
    · rintro ⟨p, hp, hb⟩
      refine ⟨p, hp, ?_⟩
      simp [List.mem_append]
      exact hb
  refine ⟨heq, hiff1, hiff2, ?_, ?_⟩
  · intro h1 h2
    rw [heq, if_pos (hiff1.mpr h1), if_pos (hiff2.mpr h2)]
    rfl
  · intro h1 h2
    rw [heq, if_neg, if_neg]
    · rfl
    · rw [hiff2]
      push_neg
      intro p hp
      rcases h2 p hp with h | h
      · exact fun hc => absurd h hc
      · exact fun _ => h
    · rw [hiff1]
      push_neg
      exact h1

/-- Witness for claim C4: a call supplying one required name while missing the
other and adding an undeclared one produces exactly two issues. -/
theorem c4_witness :
    (callArgumentIssues [("sub", ⟨["a", "b"], ["c"]⟩)]
      ⟨0, "s", .callStep "sub" (some ["a", "d"])⟩).length = 2 := by
  refine (c4_call_arguments [("sub", ⟨["a", "b"], ["c"]⟩)] 0 "s" "sub"
    (some ["a", "d"]) ⟨["a", "b"], ["c"]⟩ (by decide)).2.2.2.1 ?_ ?_
  · exact ⟨"b", by decide, by decide⟩
  · exact ⟨"d", by decide, by decide, by decide⟩

/-- A `next` field produces no issue exactly when every present, non-empty
value resolves to a step name or `"end"`. -/
theorem nextTargetIssue_eq_nil_iff (sn : List String) (nm : String)
    (next : Option GWStepName) :
    nextTargetIssue sn nm next = []
      ↔ ∀ v, next = some v → v ≠ "" → (v ∈ sn ∨ v = "end") := by
  rcases next with _ | v
  · simp [nextTargetIssue]
  · rw [nextTargetIssue]
    by_cases hv : v = ""
    · subst hv
      simp
    · by_cases hres : v ∈ sn ∨ v = "end"
      · rw [if_neg]
        · simp [hres]
        · simp [validNextTarget, hv]
          rcases hres with h | h <;> simp [h]
      · rw [if_pos]
        · push_neg at hres
          simp only [List.cons_ne_nil, false_iff]
          push_neg
          exact ⟨v, rfl, hv, by simpa using hres⟩
        · push_neg at hres
          simp [validNextTarget, hv, hres.1, hres.2]
  
/-- Claim C5 (amended): a switch step produces no `missingJumpTarget` issue
exactly when each of its present, non-empty `next` values (top-level and per
condition) resolves to a step name of the workflow or the literal `"end"`.  A
present, non-empty, dangling value always yields its issue, and an absent
field never does.  The claimed iff fails as stated because a present
empty-string `next` is skipped by the JavaScript truthiness guard rather than
checked (see the counterexample). -/
theorem c5_switch_jump_targets :
    (∀ (sn subs : List String) (oid : Nat) (name : String)
        (conds : List SwitchCondition) (next : Option GWStepName),
      stepJumpTargetIssues sn subs ⟨oid, name, .switchStep conds next⟩ = []
        ↔ ((∀ v, next = some v → v ≠ "" → (v ∈ sn ∨ v = "end"))
           ∧ ∀ c ∈ conds, ∀ v, c.next = some v → v ≠ "" → (v ∈ sn ∨ v = "end")))
    ∧ (∀ (sn : List String) (nm : String) (next : Option GWStepName) (v : String),
        next = some v → v ≠ "" → v ∉ sn → v ≠ "end" →
        nextTargetIssue sn nm next
          = [⟨"missingJumpTarget",
              "Next target \"" ++ v ++ "\" in step \"" ++ nm ++ "\" not found"⟩])
    ∧ (∀ (sn : List String) (nm : String), nextTargetIssue sn nm none = []) := by
  refine ⟨?_, ?_, fun sn nm => rfl⟩
  · intro sn subs oid name conds next
    simp only [stepJumpTargetIssues, NamedWorkflowStep.step, NamedWorkflowStep.name,
      List.append_eq_nil, List.flatMap_eq_nil_iff]
    constructor
    · rintro ⟨h1, h2⟩
      exact ⟨(nextTargetIssue_eq_nil_iff _ _ _).mp h1,
        fun c hc => (nextTargetIssue_eq_nil_iff _ _ _).mp (h2 c hc)⟩
    · rintro ⟨h1, h2⟩
      exact ⟨(nextTargetIssue_eq_nil_iff _ _ _).mpr h1,
        fun c hc => (nextTargetIssue_eq_nil_iff _ _ _).mpr (h2 c hc)⟩
  · intro sn nm next v hv hne hsn hend
    subst hv
    rw [nextTargetIssue, if_pos]
    simp [validNextTarget, hne, hsn, hend]

/-- Counterexample to claim C5 as stated: a switch whose top-level `next` is
present but the empty string, which resolves to nothing, yet the check issues
nothing and `validate` returns normally. -/
theorem c5_counterexample :
    ((some "" : Option GWStepName) ≠ none)
    ∧ "" ∉ workflowStepNames appEmptyNext.mainWorkflow
    ∧ ("" : String) ≠ "end"
    ∧ validateJumpTargetsInWorkflow appEmptyNext.mainWorkflow
        (appEmptyNext.subworkflows.map BaseWorkflow.name) = []
    ∧ validate appEmptyNext [] = Except.ok () := by
  have hmain : appEmptyNext.mainWorkflow.iterateStepsDepthFirst
      = [⟨0, "s1", .switchStep [] (some "")⟩] := by
    have hsteps : appEmptyNext.mainWorkflow.steps
        = [⟨0, "s1", .switchStep [] (some "")⟩] := rfl
    rw [BaseWorkflow.iterateStepsDepthFirst, hsteps]
    simp [visitPreOrderList, visitPreOrder, WorkflowStep.nestedSteps,
      NamedWorkflowStep.oid, NamedWorkflowStep.step]
  have hnames : workflowStepNames appEmptyNext.mainWorkflow = ["s1"] := by
    rw [workflowStepNames, hmain]
    rfl
  have hjump : validateJumpTargetsInWorkflow appEmptyNext.mainWorkflow
      (appEmptyNext.subworkflows.map BaseWorkflow.name) = [] := by
    rw [validateJumpTargetsInWorkflow, hmain, hnames]
    decide
  refine ⟨by decide, by rw [hnames]; decide, by decide, hjump, ?_⟩
  rw [validate_ok_iff, validateIssues]
  simp only [validatorList, List.contains_nil, Bool.not_false, List.filter_cons,
    if_true, List.filter_nil]
  have h1 : validateWorkflowNames appEmptyNext = [] := by
    simp [validateWorkflowNames, appEmptyNext]
  have h2 : validateNoDuplicateStepNames appEmptyNext = [] := by
    refine validateNoDuplicateStepNames_eq_nil ?_
    intro wf hwf
    rcases hwf with rfl | hwf
    · rw [hnames]
      decide
    · simp [appEmptyNext] at hwf
  have h3 : validateNoDuplicateSubworkflowNames appEmptyNext = [] := by
    simp [validateNoDuplicateSubworkflowNames, appEmptyNext, dupScanStep]
  have h4 : validateJumpTargets appEmptyNext = [] := by
    rw [validateJumpTargets]
    simp only [appEmptyNext, List.map_nil, List.flatMap_nil, List.append_nil]
    exact hjump
  have h5 : validateSubworkflowArguments appEmptyNext = [] := by
    refine validateSubworkflowArguments_eq_nil ?_
    intro wf hwf ns hns
    rcases hwf with rfl | hwf
    · rw [hmain] at hns
      simp only [List.mem_singleton] at hns
      subst hns
      rfl
    · simp [appEmptyNext] at hwf
  simp [h1, h2, h3, h4, h5]

/-- Witness for the amended claim C5: a condition jumping to a nonexistent
step name yields a `missingJumpTarget` issue naming it. -/
theorem c5_witness :
    nextTargetIssue ["s1"] "sw" (some "nonexistent_step")
      = [⟨"missingJumpTarget",
          "Next target \"nonexistent_step\" in step \"sw\" not found"⟩] :=
  c5_switch_jump_targets.2.1 ["s1"] "sw" (some "nonexistent_step") "nonexistent_step"
    rfl (by decide) (by decide) (by decide)

/-- Claim C6: a disabled check contributes nothing — no aggregated issue ever
carries a disabled check's name (and each issue carries one of the five check
names); names in `disabled` that match no check are ignored, the result being
the same as with them filtered away; and an application whose full issue list
falls entirely in the disabled categories validates without raising. -/
theorem c6_disabled_checks :
    (∀ (app : WorkflowApp) (disabled : List String),
      ∀ i ∈ validateIssues app disabled, i.type ∈ checkNames ∧ i.type ∉ disabled)
    ∧ (∀ (app : WorkflowApp) (disabled : List String),
      validateIssues app disabled
        = validateIssues app (disabled.filter (fun d => checkNames.contains d)))
    ∧ (∀ (app : WorkflowApp) (disabled : List String),
      (∀ i ∈ validateIssues app [], i.type ∈ disabled) →
      validate app disabled = Except.ok ()) := by
  refine ⟨validateIssues_types, ?_, ?_⟩
  · intro app disabled
    rw [validateIssues, validateIssues]
    congr 1
    refine List.filter_congr ?_
    intro p hp
    have hname : p.1 ∈ checkNames := by
      rw [checkNames]
      exact List.mem_map_of_mem Prod.fst hp
    by_cases hd : p.1 ∈ disabled
    · have : p.1 ∈ disabled.filter (fun d => checkNames.contains d) := by
        refine List.mem_filter.mpr ⟨hd, ?_⟩
        simpa using hname
      simp [hd, this, hname]
    · have : p.1 ∉ disabled.filter (fun d => checkNames.contains d) := by
        intro hc
        exact hd (List.mem_filter.mp hc).1
      simp [hd, this]
  · intro app disabled h
    rw [validate_ok_iff, validateIssues, List.flatMap_eq_nil_iff]
    intro p hp
    rcases List.mem_filter.mp hp with ⟨hpl, hcond⟩
    rcases hpeq : p.2 app with _ | ⟨i, rest⟩
    · rfl
    · exfalso
      have hi : i ∈ p.2 app := by
        rw [hpeq]
        simp
    
      have htype := validator_issue_types p hpl app i hi
      have hfull : i ∈ validateIssues app [] :=
        mem_validateIssues_of_mem p.1 p.2
          (by rcases p with ⟨a, b⟩; exact hpl) hi (by simp)
      have hdis : i.type ∈ disabled := h i hfull
      rw [htype] at hdis
      have hnd : p.1 ∉ disabled := by simpa using hcond
      exact hnd hdis

/-- Witness for claim C6: disabling `duplicatedStepName` makes the
duplicate-name application validate cleanly. -/
theorem c6_witness : validate appDupStep ["duplicatedStepName"] = Except.ok () := by
  refine c6_disabled_checks.2.2 appDupStep ["duplicatedStepName"] ?_
  intro i hi
  have hmain : appDupStep.mainWorkflow.iterateStepsDepthFirst
      = [⟨0, "s1", .assignStep⟩, ⟨1, "s1", .callStep "sys.log" (some ["text"])⟩] := by
    have hsteps : appDupStep.mainWorkflow.steps
        = [⟨0, "s1", .assignStep⟩, ⟨1, "s1", .callStep "sys.log" (some ["text"])⟩] := rfl
    rw [BaseWorkflow.iterateStepsDepthFirst, hsteps]
    simp [visitPreOrderList, visitPreOrder, WorkflowStep.nestedSteps,
      NamedWorkflowStep.oid, NamedWorkflowStep.step]
  have h1 : validateWorkflowNames appDupStep = [] := by
    simp [validateWorkflowNames, appDupStep]
  have h3 : validateNoDuplicateSubworkflowNames appDupStep = [] := by
    simp [validateNoDuplicateSubworkflowNames, appDupStep]
  have h4 : validateJumpTargets appDupStep = [] := by
    refine validateJumpTargets_eq_nil ?_
    intro wf hwf ns hns
    rcases hwf with rfl | hwf
    · rw [hmain] at hns
      rw [workflowStepNames, hmain]
      simp only [List.mem_cons, List.not_mem_nil, or_false] at hns
      rcases hns with rfl | rfl <;> decide
    · simp [appDupStep] at hwf
  have h5 : validateSubworkflowArguments appDupStep = [] := by
    refine validateSubworkflowArguments_eq_nil ?_
    intro wf hwf ns hns
    rcases hwf with rfl | hwf
    · rw [hmain] at hns
      simp only [List.mem_cons, List.not_mem_nil, or_false] at hns
      rcases hns with rfl | rfl <;> decide
    · simp [appDupStep] at hwf
  rw [validateIssues] at hi
  rcases List.mem_flatMap.mp hi with ⟨p, hp, hmem⟩
  have hpl : p ∈ validatorList := (List.mem_filter.mp hp).1
  have htype := validator_issue_types p hpl appDupStep i hmem
  rw [validatorList] at hpl
  simp only [List.mem_cons, List.not_mem_nil, or_false] at hpl
  rcases hpl with rfl | rfl | rfl | rfl | rfl
  · have hmem2 : i ∈ validateWorkflowNames appDupStep := hmem
    rw [h1] at hmem2
    simp at hmem2
  · have ht2 : i.type = "duplicatedStepName" := htype
    simp [ht2]
  · have hmem2 : i ∈ validateNoDuplicateSubworkflowNames appDupStep := hmem
    rw [h3] at hmem2
    simp at hmem2
  · have hmem2 : i ∈ validateJumpTargets appDupStep := hmem
    rw [h4] at hmem2
    simp at hmem2
  · have hmem2 : i ∈ validateSubworkflowArguments appDupStep := hmem
    rw [h5] at hmem2
    simp at hmem2

/-- Claim C8: the step model's `SwitchCondition` constructor raises exactly
when both of `next` and `steps` are given or both are absent; and the
validation pipeline never reports such a violation as an issue — every
pipeline issue carries one of the five cross-cutting check names. -/
theorem c8_switch_condition_invariant :
    (∀ (cond : String) (next : Option StepV1) (steps : Option (List StepV1)),
      (∃ e, SwitchConditionV1.make cond next steps = Except.error e)
        ↔ ((next.isSome ∧ steps.isSome) ∨ (next.isNone ∧ steps.isNone)))
    ∧ (∀ (app : WorkflowApp) (disabled : List String),
      ∀ i ∈ validateIssues app disabled, i.type ∈ checkNames) := by
  constructor
  · intro cond next steps
    rw [SwitchConditionV1.make]
    by_cases h : ((next.isSome && steps.isSome) || (next.isNone && steps.isNone)) = true
    · rw [if_pos h]
      constructor
      · intro
        simpa using h
      · intro
        exact ⟨_, rfl⟩
    · rw [if_neg h]
      constructor
      · rintro ⟨e, he⟩
        exact absurd he (by simp)
      · intro hc
        exact absurd (by simpa using hc) h
  · intro app disabled i hi
    exact (validateIssues_types app disabled i hi).1

/-- Witness for claim C8: omitting both `next` and `steps` is rejected at
construction time. -/
theorem c8_witness :
    ∃ e, SwitchConditionV1.make "x > 0" none none = Except.error e :=
  (c8_switch_condition_invariant.1 "x > 0" none none).mpr (Or.inr ⟨rfl, rfl⟩)

/-- Claim C9: a subworkflow named `"main"` or with an empty name makes
`validate` raise carrying an `invalidWorkflowName` issue, and the check
produces no issue when every subworkflow name is non-empty and differs from
`"main"`. -/
theorem c9_invalid_workflow_name :
    (∀ (app : WorkflowApp) (sw : Subworkflow), sw ∈ app.subworkflows →
      (sw.name = "main" ∨ sw.name = "") →
      ∃ issues, validate app [] = Except.error issues
        ∧ ∃ i ∈ issues, i.type = "invalidWorkflowName")
    ∧ (∀ app : WorkflowApp,
      (∀ sw ∈ app.subworkflows, sw.name ≠ "main" ∧ sw.name ≠ "") →
      validateWorkflowNames app = []) := by
  constructor
  · intro app sw hsw hname
    have hmem : ∃ i ∈ validateWorkflowNames app, i.type = "invalidWorkflowName" := by
      rcases hname with hname | hname
      · refine ⟨⟨"invalidWorkflowName",
          "Subworkflow can" ++ String.singleton (Char.ofNat 39)
            ++ "t be called \"main\""⟩, ?_, rfl⟩
        rw [validateWorkflowNames]
        refine List.mem_append.mpr (Or.inl ?_)
        rw [if_pos]
        · simp
        · rw [List.any_eq_true]
          exact ⟨sw.name, List.mem_map_of_mem BaseWorkflow.name hsw, by simp [hname]⟩
      · refine ⟨⟨"invalidWorkflowName", "Subworkflow must have a non-empty name"⟩, ?_, rfl⟩
        rw [validateWorkflowNames]
        refine List.mem_append.mpr (Or.inr ?_)
        rw [if_pos]
        · simp
        · rw [List.any_eq_true]
          exact ⟨sw.name, List.mem_map_of_mem BaseWorkflow.name hsw, by simp [hname]⟩
    rcases hmem with ⟨i, hi, htype⟩
    have hmem2 : i ∈ validateIssues app [] :=
      mem_validateIssues_of_mem "invalidWorkflowName"
        validateWorkflowNames (by simp [validatorList]) hi (by simp)
    have hne : validateIssues app [] ≠ [] := by
      intro hnil
      rw [hnil] at hmem2
      simp at hmem2
    exact ⟨validateIssues app [], validate_error_of_ne_nil hne, i, hmem2, htype⟩
  · intro app h
    exact validateWorkflowNames_eq_nil h

/-- Witness for claim C9 at an application with a subworkflow named
`"main"`. -/
theorem c9_witness :
    ∃ issues, validate appMainSubName [] = Except.error issues
      ∧ ∃ i ∈ issues, i.type = "invalidWorkflowName" :=
  c9_invalid_workflow_name.1 appMainSubName ⟨"main", [], none⟩ (by simp [appMainSubName])
    (Or.inl rfl)

/-- The call-argument scan for one call step depends on the parameter map only
through the entry looked up for the call's target. -/
theorem callArgumentIssues_congr {m1 m2 : List (String × SubworkflowParams)}
    (oid : Nat) (name target : String) (args : Option (List GWVariableName))
    (h : jsMapGet m1 target = jsMapGet m2 target) :
    callArgumentIssues m1 ⟨oid, name, .callStep target args⟩
      = callArgumentIssues m2 ⟨oid, name, .callStep target args⟩ := by
  simp only [callArgumentIssues, NamedWorkflowStep.step, NamedWorkflowStep.name,
    jsMapHas, h]

/-- Claim C10: when subworkflow names repeat, the parameter map built by the
call-argument check retains, for each name, the parameter lists of the last
subworkflow so named; every call targeting that name is checked against that
last subworkflow's parameters, the earlier ones' parameter lists being
ignored. -/
theorem c10_last_subworkflow_wins :
    (∀ (app : WorkflowApp) (target : String),
      jsMapGet (paramsBySubworkflow app) target
        = (app.subworkflows.reverse.find? (fun sw => sw.name == target)).map
            (fun sw => ⟨requiredParamNames sw, optionalParamNames sw⟩))
    ∧ (∀ (app : WorkflowApp) (oid : Nat) (name target : String)
        (args : Option (List GWVariableName)) (sw : Subworkflow),
      app.subworkflows.reverse.find? (fun sw => sw.name == target) = some sw →
      callArgumentIssues (paramsBySubworkflow app) ⟨oid, name, .callStep target args⟩
        = callArgumentIssues [(target, ⟨requiredParamNames sw, optionalParamNames sw⟩)]
            ⟨oid, name, .callStep target args⟩) := by
  have hget : ∀ (app : WorkflowApp) (target : String),
      jsMapGet (paramsBySubworkflow app) target
        = (app.subworkflows.reverse.find? (fun sw => sw.name == target)).map
            (fun sw => ⟨requiredParamNames sw, optionalParamNames sw⟩) := by
    intro app target
    rw [jsMapGet, paramsBySubworkflow, ← List.map_reverse, List.find?_map]
    rcases hf : app.subworkflows.reverse.find? (fun sw => sw.name == target)
      with _ | sw
    · have : app.subworkflows.reverse.find?
          ((fun e => e.1 == target) ∘ fun x =>
            ((x.name, ⟨requiredParamNames x, optionalParamNames x⟩) : String × SubworkflowParams))
          = none := by
        rw [List.find?_eq_none] at hf ⊢
        exact fun x hx => hf x hx
      rw [this, hf]
      simp
    · have : app.subworkflows.reverse.find?
          ((fun e => e.1 == target) ∘ fun x =>
            ((x.name, ⟨requiredParamNames x, optionalParamNames x⟩) : String × SubworkflowParams))
          = some sw := by
        rw [show ((fun e => e.1 == target) ∘ fun x =>
          ((x.name, ⟨requiredParamNames x, optionalParamNames x⟩) : String × SubworkflowParams))
            = (fun sw => sw.name == target) from rfl]
        exact hf
      rw [this, hf]
      simp
  refine ⟨hget, ?_⟩
  intro app oid name target args sw hf
  refine callArgumentIssues_congr oid name target args ?_
  rw [hget, hf]
  simp [jsMapGet]

/-- Witness for claim C10: with two subworkflows named `helper`, a call
supplying exactly the last one's required parameter passes the check. -/
theorem c10_witness :
    callArgumentIssues (paramsBySubworkflow appDupHelper)
      ⟨0, "c1", .callStep "helper" (some ["x"])⟩ = [] := by
  rw [c10_last_subworkflow_wins.2 appDupHelper 0 "c1" "helper" (some ["x"])
    ⟨"helper", [], some [⟨"x", none⟩]⟩ rfl]
  decide
